import Mathlib

/-!
Verification of the resume PDF layout engine (`src/lib/buildResumePdf.ts`).

Strings are modelled as `List Char` (JS strings are sequences of code
points; all inputs of interest are code points).  Page-unit arithmetic is
modelled exactly over `ℚ`.  Font metric objects are opaque: a measure
function `Font → List Char → ℚ → ℚ` stands for
`font.widthOfTextAtSize(text, size)`.  Drawing is modelled by an explicit
state (current page index, cursor `y`, event trace); every mutation of the
cursor and every draw call appends an event, so invariants about the
rendering history are statements about the trace.
-/

-- ── Page constants (buildResumePdf.ts lines 13-25) ──

def PAGE_W : ℚ := 612

def PAGE_H : ℚ := 792

def MARGIN_X : ℚ := 58

def MARGIN_Y : ℚ := 54

def CONTENT_W : ℚ := PAGE_W - MARGIN_X * 2

def SZ_NAME : ℚ := 22

def SZ_SUBTITLE : ℚ := 11

def SZ_CONTACT : ℚ := 8.5

def SZ_SECTION_HDR : ℚ := 9.5

def SZ_BODY : ℚ := 9.5

def SZ_BULLET : ℚ := 9

-- ── Colors (lines 28-31) ──

structure Color where
  r : ℚ
  g : ℚ
  b : ℚ
deriving DecidableEq

def rgb (r g b : ℚ) : Color := ⟨r, g, b⟩

def C_BLACK : Color := rgb 0.07 0.07 0.12

def C_VIOLET : Color := rgb 0.38 0.18 0.72

def C_GRAY : Color := rgb 0.42 0.42 0.47

def C_RULE : Color := rgb 0.83 0.83 0.87

-- ── Fonts: Helvetica bold / regular / oblique, embedded once (lines 104-106) ──

inductive Font where
  | bold
  | regular
  | italic
deriving DecidableEq

/-- `font.widthOfTextAtSize(text, size)`: opaque metric capability. -/
def Measure : Type := Font → List Char → ℚ → ℚ

-- ── Character classes ──

/-- The apostrophe character `'`. -/
def apos : Char := Char.ofNat 39

/-- JavaScript's `\s` class (used by `split(/\s+/)` and `String.trim`). -/
def jsWS (c : Char) : Bool :=
  c == '\u0020' || (decide ('\u0009' ≤ c) && decide (c ≤ '\u000D')) || c == '\u00A0' ||
  c == '\u1680' || (decide ('\u2000' ≤ c) && decide (c ≤ '\u200A')) ||
  c == '\u2028' || c == '\u2029' || c == '\u202F' || c == '\u205F' ||
  c == '\u3000' || c == '\uFEFF'

/-- Uppercase ASCII letter (the `[A-Z]` class of the section-marker regex). -/
def isCap (c : Char) : Bool := decide ('A' ≤ c) && decide (c ≤ 'Z')

-- ── sanitize (lines 39-50) ──
-- Each `.replace(regex-of-single-chars, str)` is a per-character substitution,
-- applied left to right over the whole string; the final class drops every
-- character above U+00FF.

/-- Per-character substitution: `s.replace(/[...]/g, r)` maps each matching
character to the replacement string and keeps all others. -/
def applyRep (f : Char → List Char) : List Char → List Char
  | [] => []
  | c :: cs => f c ++ applyRep f cs

def repSQuote (c : Char) : List Char :=
  if c = '‘' ∨ c = '’' then [apos] else [c]

def repDQuote (c : Char) : List Char :=
  if c = '“' ∨ c = '”' then ['"'] else [c]

def repEmDash (c : Char) : List Char :=
  if c = '—' then [' ', '-', ' '] else [c]

def repEnDash (c : Char) : List Char :=
  if c = '–' then ['-'] else [c]

def repBullet (c : Char) : List Char :=
  if c = '•' ∨ c = '·' then ['-'] else [c]

def repEllipsis (c : Char) : List Char :=
  if c = '…' then ['.', '.', '.'] else [c]

def repTM (c : Char) : List Char :=
  if c = '™' then ['(', 'T', 'M', ')'] else [c]

def repReg (c : Char) : List Char :=
  if c = '®' then ['(', 'R', ')'] else [c]

/-- `[^\x00-\xFF]` is dropped: keep only Latin-1 code points. -/
def keepLatin1 (c : Char) : Bool := decide (c.toNat ≤ 255)

/-- `sanitize` (lines 39-50): the eight typographic substitutions applied in
source order, then the Latin-1 filter. -/
def sanitize (text : List Char) : List Char :=
  (applyRep repReg (applyRep repTM (applyRep repEllipsis (applyRep repBullet
    (applyRep repEnDash (applyRep repEmDash (applyRep repDQuote
      (applyRep repSQuote text)))))))).filter keepLatin1

/-- The action of `sanitize` on a single character. -/
def sanChar (c : Char) : List Char := sanitize [c]

-- ── sanitize lemmas ──

theorem applyRep_append (f : Char → List Char) (a b : List Char) :
    applyRep f (a ++ b) = applyRep f a ++ applyRep f b := by
  induction a with
  | nil => rfl
  | cons c cs ih => simp [applyRep, ih]

theorem sanitize_append (a b : List Char) :
    sanitize (a ++ b) = sanitize a ++ sanitize b := by
  simp [sanitize, applyRep_append, List.filter_append]

theorem sanitize_cons (c : Char) (s : List Char) :
    sanitize (c :: s) = sanChar c ++ sanitize s := by
  have h : c :: s = [c] ++ s := rfl
  rw [h, sanitize_append]; rfl

theorem sanitize_flat (s : List Char) : sanitize s = s.flatMap sanChar := by
  induction s with
  | nil => rfl
  | cons c cs ih => rw [sanitize_cons, List.flatMap_cons, ih]

theorem sanChar_generic (c : Char)
    (h1 : c ≠ '‘') (h2 : c ≠ '’') (h3 : c ≠ '“') (h4 : c ≠ '”')
    (h5 : c ≠ '—') (h6 : c ≠ '–') (h7 : c ≠ '•') (h8 : c ≠ '·')
    (h9 : c ≠ '…') (h10 : c ≠ '™') (h11 : c ≠ '®') :
    sanChar c = if keepLatin1 c then [c] else [] := by
  simp only [sanChar, sanitize, applyRep, List.append_nil,
    repSQuote, repDQuote, repEmDash, repEnDash, repBullet, repEllipsis, repTM, repReg,
    h1, h2, h3, h4, h5, h6, h7, h8, h9, h10, h11, if_neg, or_self, if_false,
    not_false_eq_true, or_false, false_or]
  simp [List.filter, h1, h2, h3, h4, h5, h6, h7, h8, h9, h10, h11]
  split <;> simp_all [List.filter]

theorem sanChar_idem (c : Char) : sanitize (sanChar c) = sanChar c := by
  by_cases h1 : c = '‘'; · subst h1; decide
  by_cases h2 : c = '’'; · subst h2; decide
  by_cases h3 : c = '“'; · subst h3; decide
  by_cases h4 : c = '”'; · subst h4; decide
  by_cases h5 : c = '—'; · subst h5; decide
  by_cases h6 : c = '–'; · subst h6; decide
  by_cases h7 : c = '•'; · subst h7; decide
  by_cases h8 : c = '·'; · subst h8; decide
  by_cases h9 : c = '…'; · subst h9; decide
  by_cases h10 : c = '™'; · subst h10; decide
  by_cases h11 : c = '®'; · subst h11; decide
  have hg := sanChar_generic c h1 h2 h3 h4 h5 h6 h7 h8 h9 h10 h11
  by_cases hk : keepLatin1 c
  · rw [if_pos hk] at hg
    rw [hg]; exact hg
  · rw [if_neg hk] at hg
    rw [hg]; rfl

/-- Applying sanitize twice equals applying it once. -/
theorem sanitize_idem (s : List Char) : sanitize (sanitize s) = sanitize s := by
  induction s with
  | nil => rfl
  | cons c cs ih => rw [sanitize_cons, sanitize_append, sanChar_idem, ih]

theorem sanitize_latin1 (s : List Char) : ∀ c ∈ sanitize s, c.toNat ≤ 255 := by
  intro c hc
  simp only [sanitize] at hc
  have := (List.mem_filter.mp hc).2
  exact of_decide_eq_true this

-- ── Whitespace splitting: `text.split(/\s+/).filter(Boolean)` ──

/-- Accumulator-based splitter on whitespace runs: `acc` holds the (reversed)
characters of the token currently being read. -/
def tokensAux : List Char → List Char → List (List Char)
  | [], acc => if acc = [] then [] else [acc.reverse]
  | c :: cs, acc =>
    if jsWS c then
      if acc = [] then tokensAux cs [] else acc.reverse :: tokensAux cs []
    else tokensAux cs (c :: acc)

/-- The non-empty whitespace-delimited tokens of a string, in order:
`s.split(/\s+/).filter(Boolean)`. -/
def tokens (l : List Char) : List (List Char) := tokensAux l []

/-- `String.prototype.trim`: strip leading and trailing whitespace. -/
def trim (l : List Char) : List Char :=
  ((l.dropWhile jsWS).reverse.dropWhile jsWS).reverse

/-- `content.split("\n")` (keeps empty segments). -/
def splitNL : List Char → List (List Char)
  | [] => [[]]
  | c :: cs =>
    if c = '\n' then [] :: splitNL cs
    else
      match splitNL cs with
      | [] => [[c]]
      | l :: ls => (c :: l) :: ls

/-- `Array.prototype.join(sep)`. -/
def joinSep (sep : List Char) : List (List Char) → List Char
  | [] => []
  | [l] => l
  | l :: ls => l ++ sep ++ joinSep sep ls

-- ── wrapWords (lines 53-77) ──

/-- The accumulation loop of `wrapWords`: greedily extend `current` with the
next word while the candidate still measures within `maxWidth`; otherwise
push `current` (when non-empty) and restart from the word alone. -/
def wrapGo (measure : List Char → ℚ) (maxWidth : ℚ) :
    List (List Char) → List Char → List (List Char) → List (List Char)
  | [], current, lines => if current = [] then lines else lines ++ [current]
  | w :: ws, current, lines =>
    let candidate := if current = [] then w else current ++ ' ' :: w
    if measure candidate ≤ maxWidth then wrapGo measure maxWidth ws candidate lines
    else if current = [] then wrapGo measure maxWidth ws w lines
    else wrapGo measure maxWidth ws w (lines ++ [current])

/-- `wrapWords(text, font, size, maxWidth)` (lines 53-77). -/
def wrapWords (measure : Measure) (text : List Char) (font : Font)
    (size maxWidth : ℚ) : List (List Char) :=
  let words := tokens (sanitize text)
  if words = [] then [[]]
  else wrapGo (fun s => measure font s size) maxWidth words [] []

-- ── token lemmas ──

/-- A well-formed token: non-empty and whitespace-free. -/
def goodTok (w : List Char) : Prop := w ≠ [] ∧ ∀ c ∈ w, jsWS c = false

theorem jsWS_space : jsWS ' ' = true := by decide

theorem tokensAux_sep (b : List Char) (a : List Char) : ∀ acc,
    tokensAux (a ++ ' ' :: b) acc = tokensAux a acc ++ tokensAux b [] := by
  induction a with
  | nil =>
    intro acc
    simp only [List.nil_append, tokensAux, jsWS_space, if_true]
    by_cases h : acc = [] <;> simp [h]
  | cons c cs ih =>
    intro acc
    simp only [List.cons_append, tokensAux]
    by_cases hc : jsWS c
    · simp only [hc, if_true]
      by_cases h : acc = [] <;> simp [h, ih]
    · simp only [hc, if_false, Bool.false_eq_true]
      exact ih (c :: acc)

theorem tokensAux_noWS (w : List Char) : ∀ acc, (∀ c ∈ w, jsWS c = false) →
    tokensAux w acc = if acc = [] ∧ w = [] then [] else [acc.reverse ++ w] := by
  induction w with
  | nil =>
    intro acc _
    by_cases h : acc = [] <;> simp [tokensAux, h]
  | cons c cs ih =>
    intro acc hw
    have hc : jsWS c = false := hw c (by simp)
    have hcs : ∀ x ∈ cs, jsWS x = false := fun x hx => hw x (by simp [hx])
    simp only [tokensAux, hc, if_false, Bool.false_eq_true]
    rw [ih (c :: acc) hcs]
    simp

theorem tokens_single (w : List Char) (h : goodTok w) : tokens w = [w] := by
  obtain ⟨hne, hws⟩ := h
  unfold tokens
  rw [tokensAux_noWS w [] hws]
  simp [hne]

theorem tokensAux_good (s : List Char) : ∀ acc, (∀ c ∈ acc, jsWS c = false) →
    ∀ w ∈ tokensAux s acc, goodTok w := by
  induction s with
  | nil =>
    intro acc hacc w hw
    by_cases h : acc = []
    · simp [tokensAux, h] at hw
    · simp only [tokensAux, h, if_false] at hw
      simp at hw
      subst hw
      refine ⟨by simpa using h, ?_⟩
      intro c hc
      exact hacc c (by simpa using hc)
  | cons c cs ih =>
    intro acc hacc w hw
    simp only [tokensAux] at hw
    by_cases hc : jsWS c
    · simp only [hc, if_true] at hw
      by_cases h : acc = []
      · simp only [h, if_true] at hw
        exact ih [] (by simp) w hw
      · simp only [h, if_false] at hw
        rcases List.mem_cons.mp hw with h1 | h1
        · subst h1
          refine ⟨by simpa using h, ?_⟩
          intro x hx
          exact hacc x (by simpa using hx)
        · exact ih [] (by simp) w h1
    · simp only [hc, if_false, Bool.false_eq_true] at hw
      refine ih (c :: acc) ?_ w hw
      intro x hx
      rcases List.mem_cons.mp hx with h1 | h1
      · subst h1; simpa using hc
      · exact hacc x h1

theorem tokens_good (s : List Char) : ∀ w ∈ tokens s, goodTok w :=
  tokensAux_good s [] (by simp)

theorem tokens_sep (a b : List Char) :
    tokens (a ++ ' ' :: b) = tokens a ++ tokens b :=
  tokensAux_sep b a []

-- ── wrapWords lemmas ──

/-- Token concatenation over a list of lines. -/
def joinTok : List (List Char) → List (List Char)
  | [] => []
  | l :: ls => tokens l ++ joinTok ls

theorem joinTok_append (a b : List (List Char)) :
    joinTok (a ++ b) = joinTok a ++ joinTok b := by
  induction a with
  | nil => rfl
  | cons l ls ih => simp [joinTok, ih]

theorem wrapGo_mem (measure : List Char → ℚ) (maxW : ℚ)
    (allW : List (List Char)) :
    ∀ ws current lines, (∀ w ∈ ws, w ∈ allW) →
    (current = [] ∨ measure current ≤ maxW ∨ current ∈ allW) →
    (∀ l ∈ lines, measure l ≤ maxW ∨ l ∈ allW) →
    ∀ l ∈ wrapGo measure maxW ws current lines,
      measure l ≤ maxW ∨ l ∈ allW := by
  intro ws
  induction ws with
  | nil =>
    intro current lines _ hcur hlines l hl
    simp only [wrapGo] at hl
    by_cases h : current = []
    · rw [if_pos h] at hl; exact hlines l hl
    · rw [if_neg h] at hl
      rcases List.mem_append.mp hl with h1 | h1
      · exact hlines l h1
      · simp at h1; subst h1
        rcases hcur with h2 | h2
        · exact absurd h2 h
        · exact h2
  | cons w ws ih =>
    intro current lines hws hcur hlines l hl
    have hwAll : w ∈ allW := hws w (by simp)
    have hws' : ∀ x ∈ ws, x ∈ allW := fun x hx => hws x (by simp [hx])
    simp only [wrapGo] at hl
    by_cases hfit : measure (if current = [] then w else current ++ ' ' :: w) ≤ maxW
    · rw [if_pos hfit] at hl
      exact ih _ _ hws' (Or.inr (Or.inl hfit)) hlines l hl
    · rw [if_neg hfit] at hl
      by_cases h : current = []
      · rw [if_pos h] at hl
        exact ih _ _ hws' (Or.inr (Or.inr hwAll)) hlines l hl
      · rw [if_neg h] at hl
        refine ih _ _ hws' (Or.inr (Or.inr hwAll)) ?_ l hl
        intro x hx
        rcases List.mem_append.mp hx with h1 | h1
        · exact hlines x h1
        · simp at h1; subst h1
          rcases hcur with h2 | h2
          · exact absurd h2 h
          · exact h2

theorem wrapGo_join (measure : List Char → ℚ) (maxW : ℚ) :
    ∀ ws current lines, (∀ w ∈ ws, goodTok w) →
    joinTok (wrapGo measure maxW ws current lines) =
      joinTok lines ++ tokens current ++ ws := by
  intro ws
  induction ws with
  | nil =>
    intro current lines _
    simp only [wrapGo]
    by_cases h : current = []
    · rw [if_pos h]; subst h; simp [tokens, tokensAux]
    · rw [if_neg h]; simp [joinTok_append, joinTok]
  | cons w ws ih =>
    intro current lines hgood
    have hw : goodTok w := hgood w (by simp)
    have hws : ∀ x ∈ ws, goodTok x := fun x hx => hgood x (by simp [hx])
    have htw : tokens w = [w] := tokens_single w hw
    simp only [wrapGo]
    by_cases h : current = []
    · subst h
      simp only [eq_self_iff_true, if_true, List.nil_append, ite_self]
      rw [ih w lines hws, htw]
      simp [tokens, tokensAux]
    · simp only [if_neg h]
      by_cases hfit : measure (current ++ ' ' :: w) ≤ maxW
      · rw [if_pos hfit, ih _ _ hws, tokens_sep current w, htw]
        simp
      · rw [if_neg hfit, ih _ _ hws, htw]
        simp [joinTok_append, joinTok]

-- ── Concrete measure functions used to instantiate theorems ──

/-- A font-metric model in which every character is one unit wide. -/
def lenMeasure : Measure := fun _ s _ => (s.length : ℚ)

/-- A degenerate font-metric model: everything has zero width. -/
def zeroMeasure : Measure := fun _ _ _ => 0

/-- A degenerate font-metric model: everything is wider than a page. -/
def hugeMeasure : Measure := fun _ _ _ => 1000

-- ── Claims C2, C3, C6, C7 ──

/-- C2: for every text, font, size and maxWidth > 0 (under the font-metric
sanity fact that empty text measures zero), every line returned by
`wrapWords` either measures at most `maxWidth` at that font and size, or is
a single whitespace-delimited token of the sanitized input, emitted alone on
its own line — never split and never dropped. -/
theorem claim_C2_wrap_fits (measure : Measure) (text : List Char) (font : Font)
    (size maxWidth : ℚ) (hW : 0 < maxWidth) (h0 : measure font [] size = 0) :
    ∀ line ∈ wrapWords measure text font size maxWidth,
      measure font line size ≤ maxWidth ∨ line ∈ tokens (sanitize text) := by
  intro line hl
  simp only [wrapWords] at hl
  by_cases h : tokens (sanitize text) = []
  · rw [if_pos h] at hl
    simp at hl
    subst hl
    left
    rw [h0]
    exact le_of_lt hW
  · rw [if_neg h] at hl
    exact wrapGo_mem (fun s => measure font s size) maxWidth (tokens (sanitize text))
      (tokens (sanitize text)) [] [] (fun w hw => hw) (Or.inl rfl) (by simp) line hl

theorem claim_C2_wrap_fits_witness :
    lenMeasure Font.regular ("hello world".toList) 9.5 ≤ 496 ∨
      ("hello world".toList) ∈ tokens (sanitize ("hello world".toList)) :=
  claim_C2_wrap_fits lenMeasure ("hello world".toList) Font.regular 9.5 496
    (by norm_num) (by simp [lenMeasure]) ("hello world".toList) (by decide)

/-- C3: concatenating the whitespace-split tokens of the lines returned by
`wrapWords`, in order, reproduces exactly the whitespace-split token sequence
of the sanitized input — no token dropped, duplicated or reordered — and an
input with no tokens yields exactly the one-element sequence of one empty
string. -/
theorem claim_C3_wrap_coverage (measure : Measure) (text : List Char) (font : Font)
    (size maxWidth : ℚ) :
    joinTok (wrapWords measure text font size maxWidth) = tokens (sanitize text) ∧
    (tokens (sanitize text) = [] → wrapWords measure text font size maxWidth = [[]]) := by
  constructor
  · by_cases h : tokens (sanitize text) = []
    · simp only [wrapWords]
      rw [if_pos h, h]
      simp [joinTok, tokens, tokensAux]
    · simp only [wrapWords]
      rw [if_neg h, wrapGo_join _ _ _ [] [] (tokens_good (sanitize text))]
      simp [joinTok, tokens, tokensAux]
  · intro h
    simp only [wrapWords]
    rw [if_pos h]

theorem claim_C3_wrap_coverage_witness :
    wrapWords zeroMeasure ("  ".toList) Font.regular 9.5 496 = [[]] :=
  (claim_C3_wrap_coverage zeroMeasure ("  ".toList) Font.regular 9.5 496).2 (by decide)

/-- C6: sanitize is a total function on strings; it maps the listed
typographic punctuation to the listed ASCII equivalents (acting
characterwise via `sanChar`, whose values on the special characters are the
listed replacements) and every character of its output lies in the
256-code-point Latin-1 subset renderable by the embedded standard fonts. -/
theorem claim_C6_sanitize_contract (s : List Char) :
    sanitize s = s.flatMap sanChar ∧
    (∀ c ∈ sanitize s, c.toNat ≤ 255) ∧
    sanChar '‘' = [apos] ∧ sanChar '’' = [apos] ∧
    sanChar '“' = ['"'] ∧ sanChar '”' = ['"'] ∧
    sanChar '—' = [' ', '-', ' '] ∧ sanChar '–' = ['-'] ∧
    sanChar '•' = ['-'] ∧ sanChar '·' = ['-'] ∧
    sanChar '…' = ['.', '.', '.'] ∧
    sanChar '™' = ['(', 'T', 'M', ')'] ∧ sanChar '®' = ['(', 'R', ')'] :=
  ⟨sanitize_flat s, sanitize_latin1 s, by decide, by decide, by decide, by decide,
    by decide, by decide, by decide, by decide, by decide, by decide, by decide⟩

theorem claim_C6_sanitize_contract_witness : ('a').toNat ≤ 255 :=
  (claim_C6_sanitize_contract ("a€".toList)).2.1 'a' (by decide)

/-- C7: sanitize is idempotent: `sanitize (sanitize x) = sanitize x` for
every string `x`. -/
theorem claim_C7_sanitize_idem (x : List Char) :
    sanitize (sanitize x) = sanitize x :=
  sanitize_idem x

-- ── parseSections (lines 80-98) ──

/-- Attempt of the regex `\[([A-Z]+)\]` just after an opening bracket: the
greedy run of capitals must be non-empty and immediately followed by `]`.
(Backtracking cannot help: a shorter capitals run is followed by a capital,
which is never `]`.) -/
def matchAt (cs : List Char) : Option (List Char × List Char) :=
  match cs.dropWhile isCap with
  | c :: rest =>
    if c = ']' then
      if cs.takeWhile isCap = [] then none else some (cs.takeWhile isCap, rest)
    else none
  | [] => none

/-- Leftmost occurrence of a `[KEY]` marker in the text: returns the text
before the marker, the key, and the text after the closing bracket. -/
def scanMarker : List Char → Option (List Char × List Char × List Char)
  | [] => none
  | c :: cs =>
    if c = '[' then
      match matchAt cs with
      | some (k, rest) => some ([], k, rest)
      | none => (scanMarker cs).map (fun p => (c :: p.1, p.2.1, p.2.2))
    else (scanMarker cs).map (fun p => (c :: p.1, p.2.1, p.2.2))

/-- The `while ((match = regex.exec(text)) !== null)` loop of
`parseSections`: after a marker with key `key`, the section content runs to
the start of the next marker (or the end of the string).  `fuel` bounds the
number of remaining markers; `rest.length` always suffices, and when the
fuel-0 default is reached the result agrees with the no-further-marker
case. -/
def parseLoop : Nat → List Char → List Char → List (List Char × List Char)
  | 0, key, rest => [(key, trim rest)]
  | fuel + 1, key, rest =>
    match scanMarker rest with
    | none => [(key, trim rest)]
    | some (pre, key2, rest2) => (key, trim pre) :: parseLoop fuel key2 rest2

/-- `parseSections` (lines 80-98): split the raw resume text into
`(key, trimmed content)` pairs at each `[A-Z]+` marker; text before the
first marker is dropped; no marker at all gives the empty list. -/
def parseSections (text : List Char) : List (List Char × List Char) :=
  match scanMarker text with
  | none => []
  | some (_, key, rest) => parseLoop rest.length key rest

/-- `[KEY]content` for one section. -/
def mkSection (p : List Char × List Char) : List Char :=
  '[' :: (p.1 ++ (']' :: p.2))

/-- Concatenation `[KEY1]c1[KEY2]c2...` of marker blocks. -/
def mkInput : List (List Char × List Char) → List Char
  | [] => []
  | p :: rest => mkSection p ++ mkInput rest

-- ── parseSections lemmas ──

theorem takeWhile_append_all (p : Char → Bool) (l r : List Char)
    (h : ∀ c ∈ l, p c = true) :
    (l ++ r).takeWhile p = l ++ r.takeWhile p := by
  induction l with
  | nil => rfl
  | cons c cs ih =>
    have hc : p c = true := h c (by simp)
    simp [List.takeWhile_cons, hc, ih (fun x hx => h x (by simp [hx]))]

theorem dropWhile_append_all (p : Char → Bool) (l r : List Char)
    (h : ∀ c ∈ l, p c = true) :
    (l ++ r).dropWhile p = r.dropWhile p := by
  induction l with
  | nil => rfl
  | cons c cs ih =>
    have hc : p c = true := h c (by simp)
    simp [List.dropWhile_cons, hc, ih (fun x hx => h x (by simp [hx]))]

theorem takeWhile_append_stop (p : Char → Bool) (l r : List Char) (d : Char)
    (r' : List Char) (h : l.dropWhile p = d :: r') :
    (l ++ r).takeWhile p = l.takeWhile p ∧
      (l ++ r).dropWhile p = d :: (r' ++ r) := by
  induction l with
  | nil => simp at h
  | cons c cs ih =>
    by_cases hc : p c
    · rw [List.dropWhile_cons_of_pos hc] at h
      have := ih h
      simp [List.takeWhile_cons, List.dropWhile_cons, hc, this.1, this.2]
    · rw [List.dropWhile_cons_of_neg hc] at h
      cases h
      simp [List.takeWhile_cons, List.dropWhile_cons, hc]

theorem matchAt_marker (k t : List Char) (hk : k ≠ [])
    (hcaps : ∀ c ∈ k, isCap c = true) :
    matchAt (k ++ ']' :: t) = some (k, t) := by
  have hd : (k ++ ']' :: t).dropWhile isCap = ']' :: t := by
    rw [dropWhile_append_all isCap k (']' :: t) hcaps]
    simp [List.dropWhile_cons, isCap]
  have ht : (k ++ ']' :: t).takeWhile isCap = k := by
    rw [takeWhile_append_all isCap k (']' :: t) hcaps]
    simp [List.takeWhile_cons, isCap]
  simp [matchAt, hd, ht, hk]

theorem matchAt_none_extend (p z : List Char) (h : matchAt p = none) :
    matchAt (p ++ '[' :: z) = none := by
  match hd : p.dropWhile isCap with
  | [] =>
    have hall : ∀ c ∈ p, isCap c = true := by
      intro c hc
      have := List.dropWhile_eq_nil_iff.mp hd
      simpa using this c hc
    have : (p ++ '[' :: z).dropWhile isCap = '[' :: z := by
      rw [dropWhile_append_all isCap p ('[' :: z) hall]
      simp [List.dropWhile_cons, isCap]
    simp [matchAt, this]
  | d :: r' =>
    have hsplit := takeWhile_append_stop isCap p ('[' :: z) d r' hd
    by_cases hdd : d = ']'
    · subst hdd
      have hne : p.takeWhile isCap = [] := by
        by_contra hne
        simp [matchAt, hd, hne] at h
      simp [matchAt, hsplit.1, hsplit.2, hne]
    · simp [matchAt, hsplit.2, hdd]

theorem scanMarker_none_extend (k t : List Char) (hk : k ≠ [])
    (hcaps : ∀ c ∈ k, isCap c = true) :
    ∀ p, scanMarker p = none →
      scanMarker (p ++ '[' :: (k ++ ']' :: t)) = some (p, k, t) := by
  intro p
  induction p with
  | nil =>
    intro _
    simp [scanMarker, matchAt_marker k t hk hcaps]
  | cons c cs ih =>
    intro h
    by_cases hc : c = '['
    · subst hc
      simp only [scanMarker, eq_self_iff_true, if_true, List.append_eq] at h ⊢
      match hm : matchAt cs with
      | some (k2, r2) => rw [hm] at h; simp at h
      | none =>
        rw [hm] at h
        have hcs : scanMarker cs = none := Option.map_eq_none.mp h
        rw [matchAt_none_extend cs ((k ++ ']' :: t)) hm, ih hcs]
        rfl
    · simp only [scanMarker, if_neg hc, List.append_eq] at h ⊢
      have hcs : scanMarker cs = none := Option.map_eq_none.mp h
      rw [ih hcs]
      rfl

theorem parseLoop_mk :
    ∀ (secs : List (List Char × List Char)) (fuel : Nat) (key c : List Char),
      scanMarker c = none →
      (∀ p ∈ secs, p.1 ≠ [] ∧ (∀ ch ∈ p.1, isCap ch = true) ∧
        scanMarker p.2 = none) →
      c.length + (mkInput secs).length ≤ fuel + 1 →
      parseLoop fuel key (c ++ mkInput secs) =
        (key, trim c) :: secs.map (fun p => (p.1, trim p.2)) := by
  intro secs
  induction secs with
  | nil =>
    intro fuel key c hc _ _
    match fuel with
    | 0 => simp [mkInput, parseLoop]
    | f + 1 => simp [mkInput, parseLoop, hc]
  | cons q rest ih =>
    intro fuel key c hc hsecs hfuel
    have hq := hsecs q (by simp)
    have hrest : ∀ p ∈ rest, p.1 ≠ [] ∧ (∀ ch ∈ p.1, isCap ch = true) ∧
        scanMarker p.2 = none := fun p hp => hsecs p (by simp [hp])
    have hsplit : c ++ mkInput (q :: rest) =
        c ++ '[' :: (q.1 ++ ']' :: (q.2 ++ mkInput rest)) := by
      simp [mkInput, mkSection, List.append_assoc]
    have hscan := scanMarker_none_extend q.1 (q.2 ++ mkInput rest) hq.1 hq.2.1 c hc
    have hlen : (mkInput (q :: rest)).length =
        q.1.length + q.2.length + 2 + (mkInput rest).length := by
      simp [mkInput, mkSection]
      omega
    match fuel with
    | 0 => omega
    | f + 1 =>
      rw [hsplit]
      simp only [parseLoop, hscan]
      rw [ih f q.1 q.2 hq.2.2 hrest (by omega)]
      simp

/-- C4 (amended): for input `pre ++ [KEY1]c1[KEY2]c2...` where the keys are
non-empty uppercase-letter strings, no `ci` itself contains a marker, and
`pre` contains no marker, `parseSections` returns exactly
`[(KEY1, trim c1), (KEY2, trim c2), ...]` in source order — repeated keys
kept independently — with the text before the first marker silently
discarded; and (the `secs = []` case) input containing no marker yields the
empty sequence. -/
theorem claim_C4_parse_roundtrip (pre : List Char)
    (secs : List (List Char × List Char))
    (hpre : scanMarker pre = none)
    (hsecs : ∀ p ∈ secs, p.1 ≠ [] ∧ (∀ ch ∈ p.1, isCap ch = true) ∧
      scanMarker p.2 = none) :
    parseSections (pre ++ mkInput secs) =
      secs.map (fun p => (p.1, trim p.2)) := by
  match secs with
  | [] =>
    simp only [mkInput, List.append_nil]
    simp [parseSections, hpre]
  | q :: rest =>
    have hq := hsecs q (by simp)
    have hrest : ∀ p ∈ rest, p.1 ≠ [] ∧ (∀ ch ∈ p.1, isCap ch = true) ∧
        scanMarker p.2 = none := fun p hp => hsecs p (by simp [hp])
    have hsplit : pre ++ mkInput (q :: rest) =
        pre ++ '[' :: (q.1 ++ ']' :: (q.2 ++ mkInput rest)) := by
      simp [mkInput, mkSection, List.append_assoc]
    have hscan := scanMarker_none_extend q.1 (q.2 ++ mkInput rest) hq.1 hq.2.1 pre hpre
    rw [hsplit]
    simp only [parseSections, hscan]
    rw [parseLoop_mk rest (q.2 ++ mkInput rest).length q.1 q.2 hq.2.2 hrest
      (by simp)]
    simp

theorem claim_C4_parse_roundtrip_witness :
    parseSections (("junk ".toList) ++ mkInput
        [("A".toList, "hi".toList), ("A".toList, " x ".toList)]) =
      [("A".toList, trim ("hi".toList)), ("A".toList, trim (" x ".toList))] := by
  rw [claim_C4_parse_roundtrip ("junk ".toList)
    [("A".toList, "hi".toList), ("A".toList, " x ".toList)]
    (by decide) (by decide)]
  rfl

/-- C4 counterexample: the claim as stated fails when a content block itself
contains a marker: the input `[A][B]x`, built by concatenating `[A]` with
content `[B]x`, does not parse to `[(A, "[B]x")]` (the splitter recognises
the embedded `[B]` as a marker). -/
theorem claim_C4_counterexample :
    parseSections (mkInput [("A".toList, "[B]x".toList)]) ≠
      [("A".toList, trim ("[B]x".toList))] := by decide

-- ── Rendering state (buildResumePdf lines 102-174) ──

/-- Trace events.
`text pg cy x yb size font color s`: a `page.drawText` call on page `pg`
with the cursor at `cy`, baseline `yb`, left edge `x`.
`rule pg cy yl`: the `page.drawLine` header rule at height `yl`.
`newPage pg prevY needed`: `doc.addPage` issued by `needSpace`, recording
the cursor value and the requested height that failed the check.
`adj pg v`: the cursor `y` was assigned the value `v` while on page `pg`. -/
inductive Ev where
  | text : Nat → ℚ → ℚ → ℚ → ℚ → Font → Color → List Char → Ev
  | rule : Nat → ℚ → ℚ → Ev
  | newPage : Nat → ℚ → ℚ → Ev
  | adj : Nat → ℚ → Ev
deriving DecidableEq

/-- Rendering state: current page index (0-based), cursor `y`, and the
chronological trace of events. -/
structure St where
  page : Nat
  y : ℚ
  trace : List Ev
deriving DecidableEq

/-- The state after `doc.addPage([PAGE_W, PAGE_H]); let y = PAGE_H - MARGIN_Y`
(lines 109-110). -/
def initSt : St := { page := 0, y := PAGE_H - MARGIN_Y, trace := [] }

def emit (s : St) (e : Ev) : St := { s with trace := s.trace ++ [e] }

/-- An assignment `y = v`, recorded in the trace. -/
def setY (s : St) (v : ℚ) : St :=
  { s with y := v, trace := s.trace ++ [Ev.adj s.page v] }

/-- `y -= d`. -/
def decY (s : St) (d : ℚ) : St := setY s (s.y - d)

/-- `needSpace(needed)` (lines 113-118). -/
def needSpace (needed : ℚ) (s : St) : St :=
  if s.y - needed < MARGIN_Y then
    { page := s.page + 1, y := PAGE_H - MARGIN_Y,
      trace := s.trace ++ [Ev.newPage (s.page + 1) s.y needed,
        Ev.adj (s.page + 1) (PAGE_H - MARGIN_Y)] }
  else s

/-- `page.drawText(str, {x, y: yb, size, font, color})`. -/
def drawText (s : St) (x yb size : ℚ) (font : Font) (color : Color)
    (str : List Char) : St :=
  emit s (Ev.text s.page s.y x yb size font color str)

/-- `addLine(text, font, size, color, x, lineHeightMult)` (lines 124-136). -/
def addLine (text : List Char) (font : Font) (size : ℚ) (color : Color)
    (x lineHeightMult : ℚ) (s : St) : St :=
  let lineH := size * lineHeightMult
  let s1 := needSpace lineH s
  let s2 := drawText s1 x (s1.y - size) size font color (sanitize text)
  decY s2 lineH

/-- `addWrapped(text, font, size, color, indent, lineHeightMult)`
(lines 139-152). -/
def addWrapped (measure : Measure) (text : List Char) (font : Font) (size : ℚ)
    (color : Color) (indent lineHeightMult : ℚ) (s : St) : St :=
  let maxW := CONTENT_W - indent
  let lines := wrapWords measure text font size maxW
  lines.foldl (fun st line =>
    addLine line font size color (MARGIN_X + indent) lineHeightMult st) s

/-- `label.toUpperCase()` (all labels drawn by the source are ASCII). -/
def upperCase (l : List Char) : List Char := l.map Char.toUpper

/-- `addSectionHeader(label)` (lines 155-174). -/
def addSectionHeader (label : List Char) (s : St) : St :=
  let s1 := decY s 8
  let s2 := needSpace (SZ_SECTION_HDR + 10) s1
  let s3 := drawText s2 MARGIN_X (s2.y - SZ_SECTION_HDR) SZ_SECTION_HDR
    Font.bold C_VIOLET (upperCase label)
  let s4 := decY s3 (SZ_SECTION_HDR + 4)
  let s5 := emit s4 (Ev.rule s4.page s4.y s4.y)
  decY s5 7

-- ── Section renderer (lines 177-267) ──

/-- `line.replace(/^[-*]\s*/, "")`. -/
def stripBullet (l : List Char) : List Char :=
  match l with
  | c :: rest => if c = '-' ∨ c = '*' then rest.dropWhile jsWS else l
  | [] => l

/-- `line.startsWith("-") || line.startsWith("*")`. -/
def isBulletLine (l : List Char) : Bool :=
  match l with
  | c :: _ => c == '-' || c == '*'
  | [] => false

/-- One line of the SUMMARY body (lines 199-202). -/
def sumLine (measure : Measure) (s : St) (line : List Char) : St :=
  if line = [] then decY s (SZ_BODY * 0.4)
  else addWrapped measure line Font.regular SZ_BODY C_BLACK 0 1.55 s

/-- One line of the EXPERIENCE body (lines 206-218): bullets are indented at
bullet size; any other non-empty line is a bold entry heading with a 5-unit
gap above. -/
def expLine (measure : Measure) (s : St) (line : List Char) : St :=
  if line = [] then decY s (SZ_BODY * 0.5)
  else if isBulletLine line then
    addWrapped measure ('-' :: ' ' :: stripBullet line) Font.regular SZ_BULLET
      C_BLACK 14 1.5 s
  else
    addWrapped measure line Font.bold SZ_BODY C_BLACK 0 1.55 (decY s 5)

/-- One line of the EDUCATION body (lines 222-231): same as EXPERIENCE
except blank lines use the 0.4 factor and entry headings get no extra gap. -/
def eduLine (measure : Measure) (s : St) (line : List Char) : St :=
  if line = [] then decY s (SZ_BODY * 0.4)
  else if isBulletLine line then
    addWrapped measure ('-' :: ' ' :: stripBullet line) Font.regular SZ_BULLET
      C_BLACK 14 1.5 s
  else addWrapped measure line Font.bold SZ_BODY C_BLACK 0 1.55 s

/-- `line.indexOf(":")` as an optional index. -/
def colonIdx (l : List Char) : Option Nat := l.findIdx? (fun c => c == ':')

/-- One line of the SKILLS body (lines 235-257). -/
def skillsLine (measure : Measure) (s : St) (line : List Char) : St :=
  if line = [] then decY s (SZ_BODY * 0.3)
  else
    let s' :=
      match colonIdx line with
      | some i =>
        let label := line.take (i + 1)
        let rest := trim (line.drop (i + 1))
        let s1 := needSpace (SZ_BODY * 1.55) s
        let labelW := measure Font.bold (sanitize label ++ [' ']) SZ_BODY
        let s2 := drawText s1 MARGIN_X (s1.y - SZ_BODY) SZ_BODY Font.bold
          C_BLACK (sanitize label)
        let restLines := wrapWords measure rest Font.regular SZ_BODY
          (CONTENT_W - labelW)
        let s3 := drawText s2 (MARGIN_X + labelW) (s2.y - SZ_BODY) SZ_BODY
          Font.regular C_BLACK (sanitize (restLines.headD []))
        let s4 := decY s3 (SZ_BODY * 1.55)
        restLines.tail.foldl (fun st extra =>
          addLine extra Font.regular SZ_BODY C_BLACK MARGIN_X 1.5 st) s4
      | none => addWrapped measure line Font.regular SZ_BODY C_BLACK 0 1.55 s
    decY s' 1

/-- One line of an unrecognised section's body (lines 262-265). -/
def fbLine (measure : Measure) (s : St) (line : List Char) : St :=
  if line = [] then decY s (SZ_BODY * 0.4)
  else addWrapped measure line Font.regular SZ_BODY C_BLACK 0 1.55 s

/-- Render one parsed section: the body of the `for` loop over sections
(lines 179-267), with the destructured `{ key, content }`. -/
def renderSection (measure : Measure) (s : St) (key content : List Char) : St :=
  let lines := (splitNL content).map trim
  if key = "NAME".toList then
    let name := (lines.find? (fun l => decide (l ≠ []))).getD []
    let title := (lines.filter (fun l => decide (l ≠ []))).getD 1 []
    let s1 := if name ≠ [] then addLine name Font.bold SZ_NAME C_BLACK MARGIN_X 1.3 s else s
    let s2 := if title ≠ [] then addLine title Font.regular SZ_SUBTITLE C_GRAY MARGIN_X 1.4 s1 else s1
    decY s2 2
  else if key = "CONTACT".toList then
    let contactLine := joinSep (" | ".toList) (lines.filter (fun l => decide (l ≠ [])))
    let s1 := addWrapped measure contactLine Font.italic SZ_CONTACT C_GRAY 0 1.5 s
    decY s1 4
  else if key = "SUMMARY".toList then
    lines.foldl (sumLine measure) (addSectionHeader ("Summary".toList) s)
  else if key = "EXPERIENCE".toList then
    lines.foldl (expLine measure) (addSectionHeader ("Experience".toList) s)
  else if key = "EDUCATION".toList then
    lines.foldl (eduLine measure) (addSectionHeader ("Education".toList) s)
  else if key = "SKILLS".toList then
    lines.foldl (skillsLine measure) (addSectionHeader ("Skills".toList) s)
  else
    lines.foldl (fbLine measure) (addSectionHeader key s)

/-- `buildResumePdf(tailoredText)` (lines 102-270): one initial page, then
render each parsed section in order.  The final state stands for the
document handed to `doc.save()` (serialization is opaque). -/
def buildResumePdf (measure : Measure) (tailoredText : List Char) : St :=
  (parseSections tailoredText).foldl
    (fun s sec => renderSection measure s sec.1 sec.2) initSt

/-- The number of pages of the document: the initial page plus every page
appended by `needSpace`. -/
def numPages (s : St) : Nat := s.page + 1

-- ── Trace predicates ──

/-- Page index carried by an event. -/
def Ev.pg : Ev → Nat
  | .text p _ _ _ _ _ _ _ => p
  | .rule p _ _ => p
  | .newPage p _ _ => p
  | .adj p _ => p

/-- Cursor value carried by an event: for draw events the cursor at the
draw call, for `newPage` the cursor before the reset, for `adj` the
assigned value. -/
def Ev.cy : Ev → ℚ
  | .text _ cy _ _ _ _ _ _ => cy
  | .rule _ cy _ => cy
  | .newPage _ prevY _ => prevY
  | .adj _ v => v

/-- Is this event a draw call (`drawText` or `drawLine`)? -/
def Ev.isDraw : Ev → Bool
  | .text _ _ _ _ _ _ _ _ => true
  | .rule _ _ _ => true
  | _ => false

/-- The draw calls of a trace, in order. -/
def draws (t : List Ev) : List Ev := t.filter Ev.isDraw

/-- A page break is justified: it records a `needSpace` check that failed. -/
def npOK : Ev → Bool
  | .newPage _ prevY needed => decide (prevY - needed < MARGIN_Y)
  | _ => true

/-- Ordering between consecutive draw calls: page indices never decrease
and, within a single page, the cursor never increases. -/
def drawRel (a b : Ev) : Prop :=
  a.pg ≤ b.pg ∧ (a.pg = b.pg → b.cy ≤ a.cy)

/-- The pagination discipline the build guarantees: consecutive draw calls
have non-decreasing page index and non-increasing cursor within a page;
a page is appended only when the `needSpace` check fails; and every draw
call happens with the cursor at or above the bottom margin. -/
def TraceOK (t : List Ev) : Prop :=
  List.Chain' drawRel (draws t) ∧ (∀ e ∈ t, npOK e = true) ∧
    (∀ e ∈ draws t, MARGIN_Y ≤ e.cy)

/-- Induction invariant: the trace is well-formed and every past draw call
is on an earlier page, or on the current page at or above the cursor. -/
def StInv (s : St) : Prop :=
  TraceOK s.trace ∧
    ∀ e ∈ draws s.trace, e.pg ≤ s.page ∧ (e.pg = s.page → s.y ≤ e.cy)

-- ── Invariant preservation lemmas ──

theorem draws_append (t1 t2 : List Ev) :
    draws (t1 ++ t2) = draws t1 ++ draws t2 :=
  List.filter_append t1 t2

theorem StInv_setY (s : St) (v : ℚ) (hv : v ≤ s.y) (h : StInv s) : StInv (setY s v) := by
  obtain ⟨⟨hch, hnp, hdr⟩, hcur⟩ := h
  have hd : draws (s.trace ++ [Ev.adj s.page v]) = draws s.trace := by
    rw [draws_append]
    simp [draws, Ev.isDraw, List.filter]
  refine ⟨⟨?_, ?_, ?_⟩, ?_⟩
  · simpa [setY, hd] using hch
  · intro e he
    simp only [setY] at he
    rcases List.mem_append.mp he with h1 | h1
    · exact hnp e h1
    · simp at h1
      subst h1
      rfl
  · intro e he
    simp only [setY] at he
    rw [hd] at he
    exact hdr e he
  · intro e he
    simp only [setY] at he
    rw [hd] at he
    obtain ⟨h1, h2⟩ := hcur e he
    exact ⟨h1, fun hp => le_trans hv (h2 hp)⟩

theorem StInv_decY (s : St) (d : ℚ) (hd : 0 ≤ d) (h : StInv s) : StInv (decY s d) :=
  StInv_setY s (s.y - d) (by linarith) h

theorem StInv_needSpace (n : ℚ) (s : St) (h : StInv s) : StInv (needSpace n s) := by
  obtain ⟨⟨hch, hnp, hdr⟩, hcur⟩ := h
  unfold needSpace
  split
  case isTrue hlt =>
    have hd : draws (s.trace ++ [Ev.newPage (s.page + 1) s.y n,
        Ev.adj (s.page + 1) (PAGE_H - MARGIN_Y)]) = draws s.trace := by
      rw [draws_append]
      simp [draws, Ev.isDraw, List.filter]
    refine ⟨⟨?_, ?_, ?_⟩, ?_⟩
    · simpa [hd] using hch
    · intro e he
      rcases List.mem_append.mp he with h1 | h1
      · exact hnp e h1
      · simp only [List.mem_cons, List.mem_singleton] at h1
        rcases h1 with h1 | h1 | h1
        · subst h1; simpa [npOK] using hlt
        · subst h1; rfl
        · exact absurd h1 (by simp)
    · intro e he
      rw [hd] at he
      exact hdr e he
    · intro e he
      rw [hd] at he
      obtain ⟨h1, _⟩ := hcur e he
      refine ⟨Nat.le_succ_of_le h1, fun hp => ?_⟩
      exfalso
      change e.pg = s.page + 1 at hp
      omega
  case isFalse hge =>
    exact ⟨⟨hch, hnp, hdr⟩, hcur⟩

theorem StInv_emitDraw (s : St) (e : Ev) (hpg : e.pg = s.page) (hcy : e.cy = s.y)
    (hnp : npOK e = true) (hy : MARGIN_Y ≤ s.y) (h : StInv s) : StInv (emit s e) := by
  obtain ⟨⟨hch, hnpAll, hdr⟩, hcur⟩ := h
  have hnpAll2 : ∀ x ∈ s.trace ++ [e], npOK x = true := by
    intro x hx
    rcases List.mem_append.mp hx with h1 | h1
    · exact hnpAll x h1
    · simp at h1; subst h1; exact hnp
  by_cases hde : Ev.isDraw e
  · have hd : draws (s.trace ++ [e]) = draws s.trace ++ [e] := by
      rw [draws_append]; simp [draws, List.filter, hde]
    have hch2 : List.Chain' drawRel (draws (s.trace ++ [e])) := by
      rw [hd, List.chain'_append]
      refine ⟨hch, List.chain'_singleton e, ?_⟩
      intro a ha b hb
      simp at hb
      subst hb
      obtain ⟨h1, h2⟩ := hcur a (List.mem_of_mem_getLast? ha)
      constructor
      · omega
      · intro hp
        rw [hcy]
        exact h2 (by omega)
    have hdr2 : ∀ x ∈ draws (s.trace ++ [e]), MARGIN_Y ≤ x.cy := by
      intro x hx
      rw [hd] at hx
      rcases List.mem_append.mp hx with h1 | h1
      · exact hdr x h1
      · simp at h1; subst h1; rw [hcy]; exact hy
    have hcur2 : ∀ x ∈ draws (s.trace ++ [e]),
        x.pg ≤ s.page ∧ (x.pg = s.page → s.y ≤ x.cy) := by
      intro x hx
      rw [hd] at hx
      rcases List.mem_append.mp hx with h1 | h1
      · exact hcur x h1
      · simp at h1; subst h1
        exact ⟨le_of_eq hpg, fun _ => le_of_eq hcy.symm⟩
    exact ⟨⟨hch2, hnpAll2, hdr2⟩, hcur2⟩
  · have hd : draws (s.trace ++ [e]) = draws s.trace := by
      rw [draws_append]; simp [draws, List.filter, hde]
    have hch2 : List.Chain' drawRel (draws (s.trace ++ [e])) := by
      rw [hd]; exact hch
    have hdr2 : ∀ x ∈ draws (s.trace ++ [e]), MARGIN_Y ≤ x.cy := by
      rw [hd]; exact hdr
    have hcur2 : ∀ x ∈ draws (s.trace ++ [e]),
        x.pg ≤ s.page ∧ (x.pg = s.page → s.y ≤ x.cy) := by
      rw [hd]; exact hcur
    exact ⟨⟨hch2, hnpAll2, hdr2⟩, hcur2⟩

/-- The header rule is drawn at the cursor on the current page. -/
theorem StInv_emitRule (s : St) (hy : MARGIN_Y ≤ s.y) (h : StInv s) :
    StInv (emit s (Ev.rule s.page s.y s.y)) :=
  StInv_emitDraw s (Ev.rule s.page s.y s.y) rfl rfl rfl hy h

theorem needSpace_y (n : ℚ) (s : St) (hn : n ≤ PAGE_H - 2 * MARGIN_Y) :
    MARGIN_Y ≤ (needSpace n s).y - n := by
  unfold needSpace
  split
  case isTrue hlt =>
    simp only [MARGIN_Y, PAGE_H] at *
    linarith
  case isFalse hge =>
    simp only [not_lt] at hge
    linarith

theorem StInv_drawText (s : St) (x yb size : ℚ) (font : Font) (color : Color)
    (str : List Char) (hy : MARGIN_Y ≤ s.y) (h : StInv s) :
    StInv (drawText s x yb size font color str) :=
  StInv_emitDraw s (Ev.text s.page s.y x yb size font color str) rfl rfl rfl hy h

theorem StInv_addLine (text : List Char) (font : Font) (size : ℚ) (color : Color)
    (x mult : ℚ) (s : St) (h0 : 0 ≤ size * mult)
    (h684 : size * mult ≤ PAGE_H - 2 * MARGIN_Y) (h : StInv s) :
    StInv (addLine text font size color x mult s) := by
  have h1 := StInv_needSpace (size * mult) s h
  have hy1 := needSpace_y (size * mult) s h684
  have hy : MARGIN_Y ≤ (needSpace (size * mult) s).y := by linarith
  have h2 := StInv_drawText (needSpace (size * mult) s) x
    ((needSpace (size * mult) s).y - size) size font color (sanitize text) hy h1
  exact StInv_decY _ (size * mult) h0 h2

theorem StInv_foldl {α : Type} (step : St → α → St)
    (hstep : ∀ s a, StInv s → StInv (step s a)) :
    ∀ (l : List α) (s : St), StInv s → StInv (l.foldl step s) := by
  intro l
  induction l with
  | nil => intro s h; exact h
  | cons a l ih => intro s h; exact ih (step s a) (hstep s a h)

theorem StInv_addWrapped (measure : Measure) (text : List Char) (font : Font)
    (size : ℚ) (color : Color) (indent mult : ℚ) (s : St)
    (h0 : 0 ≤ size * mult) (h684 : size * mult ≤ PAGE_H - 2 * MARGIN_Y)
    (h : StInv s) :
    StInv (addWrapped measure text font size color indent mult s) := by
  unfold addWrapped
  exact StInv_foldl _
    (fun st line hst => StInv_addLine line font size color (MARGIN_X + indent) mult st h0 h684 hst)
    _ s h

theorem StInv_addSectionHeader (label : List Char) (s : St) (h : StInv s) :
    StInv (addSectionHeader label s) := by
  have h1 : StInv (decY s 8) := StInv_decY s 8 (by norm_num) h
  have h2 : StInv (needSpace (SZ_SECTION_HDR + 10) (decY s 8)) :=
    StInv_needSpace _ _ h1
  have hy2 := needSpace_y (SZ_SECTION_HDR + 10) (decY s 8)
    (by norm_num [SZ_SECTION_HDR, PAGE_H, MARGIN_Y])
  have hc : (0 : ℚ) < SZ_SECTION_HDR + 10 := by norm_num [SZ_SECTION_HDR]
  have hy2b : MARGIN_Y ≤ (needSpace (SZ_SECTION_HDR + 10) (decY s 8)).y := by linarith
  have h3 := StInv_drawText (needSpace (SZ_SECTION_HDR + 10) (decY s 8)) MARGIN_X
    ((needSpace (SZ_SECTION_HDR + 10) (decY s 8)).y - SZ_SECTION_HDR)
    SZ_SECTION_HDR Font.bold C_VIOLET (upperCase label) hy2b h2
  have h4 := StInv_decY _ (SZ_SECTION_HDR + 4) (by norm_num [SZ_SECTION_HDR]) h3
  have hy4 : MARGIN_Y ≤ (decY (drawText (needSpace (SZ_SECTION_HDR + 10) (decY s 8))
      MARGIN_X ((needSpace (SZ_SECTION_HDR + 10) (decY s 8)).y - SZ_SECTION_HDR)
      SZ_SECTION_HDR Font.bold C_VIOLET (upperCase label)) (SZ_SECTION_HDR + 4)).y := by
    have hdy : (decY (drawText (needSpace (SZ_SECTION_HDR + 10) (decY s 8))
        MARGIN_X ((needSpace (SZ_SECTION_HDR + 10) (decY s 8)).y - SZ_SECTION_HDR)
        SZ_SECTION_HDR Font.bold C_VIOLET (upperCase label)) (SZ_SECTION_HDR + 4)).y =
        (needSpace (SZ_SECTION_HDR + 10) (decY s 8)).y - (SZ_SECTION_HDR + 4) := rfl
    rw [hdy]
    simp only [SZ_SECTION_HDR, MARGIN_Y] at hy2 ⊢
    linarith
  have h5 := StInv_emitRule _ hy4 h4
  exact StInv_decY _ 7 (by norm_num) h5

theorem StInv_sumLine (measure : Measure) (s : St) (line : List Char)
    (h : StInv s) : StInv (sumLine measure s line) := by
  unfold sumLine
  split
  · exact StInv_decY _ _ (by norm_num [SZ_BODY]) h
  · exact StInv_addWrapped measure line Font.regular SZ_BODY C_BLACK 0 1.55 s
      (by norm_num [SZ_BODY]) (by norm_num [SZ_BODY, PAGE_H, MARGIN_Y]) h

theorem StInv_fbLine (measure : Measure) (s : St) (line : List Char)
    (h : StInv s) : StInv (fbLine measure s line) := by
  unfold fbLine
  split
  · exact StInv_decY _ _ (by norm_num [SZ_BODY]) h
  · exact StInv_addWrapped measure line Font.regular SZ_BODY C_BLACK 0 1.55 s
      (by norm_num [SZ_BODY]) (by norm_num [SZ_BODY, PAGE_H, MARGIN_Y]) h

theorem StInv_expLine (measure : Measure) (s : St) (line : List Char)
    (h : StInv s) : StInv (expLine measure s line) := by
  unfold expLine
  split
  · exact StInv_decY _ _ (by norm_num [SZ_BODY]) h
  · split
    · exact StInv_addWrapped _ _ _ _ _ _ _ _ (by norm_num [SZ_BULLET])
        (by norm_num [SZ_BULLET, PAGE_H, MARGIN_Y]) h
    · exact StInv_addWrapped _ _ _ _ _ _ _ _ (by norm_num [SZ_BODY])
        (by norm_num [SZ_BODY, PAGE_H, MARGIN_Y]) (StInv_decY s 5 (by norm_num) h)

theorem StInv_eduLine (measure : Measure) (s : St) (line : List Char)
    (h : StInv s) : StInv (eduLine measure s line) := by
  unfold eduLine
  split
  · exact StInv_decY _ _ (by norm_num [SZ_BODY]) h
  · split
    · exact StInv_addWrapped _ _ _ _ _ _ _ _ (by norm_num [SZ_BULLET])
        (by norm_num [SZ_BULLET, PAGE_H, MARGIN_Y]) h
    · exact StInv_addWrapped _ _ _ _ _ _ _ _ (by norm_num [SZ_BODY])
        (by norm_num [SZ_BODY, PAGE_H, MARGIN_Y]) h

theorem StInv_skillsLine (measure : Measure) (s : St) (line : List Char)
    (h : StInv s) : StInv (skillsLine measure s line) := by
  unfold skillsLine
  split
  · exact StInv_decY _ _ (by norm_num [SZ_BODY]) h
  · apply StInv_decY _ 1 (by norm_num)
    split
    · have hy1 := needSpace_y (SZ_BODY * 1.55) s
        (by norm_num [SZ_BODY, PAGE_H, MARGIN_Y])
      have hy1b : MARGIN_Y ≤ (needSpace (SZ_BODY * 1.55) s).y := by
        have h0 : (0 : ℚ) ≤ SZ_BODY * 1.55 := by norm_num [SZ_BODY]
        linarith
      apply StInv_foldl
        (fun st extra => addLine extra Font.regular SZ_BODY C_BLACK MARGIN_X 1.5 st)
        (fun st a hst => StInv_addLine a Font.regular SZ_BODY C_BLACK MARGIN_X 1.5 st
          (by norm_num [SZ_BODY]) (by norm_num [SZ_BODY, PAGE_H, MARGIN_Y]) hst)
      apply StInv_decY _ _ (by norm_num [SZ_BODY])
      apply StInv_drawText
      · exact hy1b
      · apply StInv_drawText
        · exact hy1b
        · exact StInv_needSpace _ _ h
    · exact StInv_addWrapped _ _ _ _ _ _ _ _ (by norm_num [SZ_BODY])
        (by norm_num [SZ_BODY, PAGE_H, MARGIN_Y]) h

theorem StInv_renderSection (measure : Measure) (s : St) (key content : List Char)
    (h : StInv s) : StInv (renderSection measure s key content) := by
  unfold renderSection
  split
  · apply StInv_decY _ 2 (by norm_num)
    split
    · apply StInv_addLine _ _ _ _ _ _ _ (by norm_num [SZ_SUBTITLE])
        (by norm_num [SZ_SUBTITLE, PAGE_H, MARGIN_Y])
      split
      · exact StInv_addLine _ _ _ _ _ _ _ (by norm_num [SZ_NAME])
          (by norm_num [SZ_NAME, PAGE_H, MARGIN_Y]) h
      · exact h
    · split
      · exact StInv_addLine _ _ _ _ _ _ _ (by norm_num [SZ_NAME])
          (by norm_num [SZ_NAME, PAGE_H, MARGIN_Y]) h
      · exact h
  · split
    · apply StInv_decY _ 4 (by norm_num)
      exact StInv_addWrapped _ _ _ _ _ _ _ _ (by norm_num [SZ_CONTACT])
        (by norm_num [SZ_CONTACT, PAGE_H, MARGIN_Y]) h
    · split
      · exact StInv_foldl _ (fun st a hst => StInv_sumLine measure st a hst) _ _
          (StInv_addSectionHeader _ _ h)
      · split
        · exact StInv_foldl _ (fun st a hst => StInv_expLine measure st a hst) _ _
            (StInv_addSectionHeader _ _ h)
        · split
          · exact StInv_foldl _ (fun st a hst => StInv_eduLine measure st a hst) _ _
              (StInv_addSectionHeader _ _ h)
          · split
            · exact StInv_foldl _ (fun st a hst => StInv_skillsLine measure st a hst) _ _
                (StInv_addSectionHeader _ _ h)
            · exact StInv_foldl _ (fun st a hst => StInv_fbLine measure st a hst) _ _
                (StInv_addSectionHeader _ _ h)

theorem StInv_init : StInv initSt := by
  refine ⟨⟨?_, ?_, ?_⟩, ?_⟩
  · simp [initSt, draws]
  · simp [initSt]
  · simp [initSt, draws]
  · simp [initSt, draws]

theorem StInv_build (measure : Measure) (input : List Char) :
    StInv (buildResumePdf measure input) := by
  unfold buildResumePdf
  exact StInv_foldl _ (fun s sec hs => StInv_renderSection measure s sec.1 sec.2 hs)
    _ _ StInv_init

-- ── Claim C1 ──

/-- Does some cursor assignment dip below the bottom margin while a draw
call is still pending later in the trace? -/
def belowAdjThenDraw : List Ev → Bool
  | [] => false
  | e :: rest =>
    ((match e with | .adj _ v => decide (v < MARGIN_Y) | _ => false) &&
      rest.any Ev.isDraw) || belowAdjThenDraw rest

/-- C1 exactly as stated: across a full build the cursor strictly decreases
between consecutive draw calls within a page, pages are appended exactly on
a failed `needSpace` check, and the cursor is never below the bottom margin
while content is still pending. -/
def C1Stated (measure : Measure) (input : List Char) : Prop :=
  List.Chain' (fun a b => a.pg ≤ b.pg ∧ (a.pg = b.pg → b.cy < a.cy))
    (draws (buildResumePdf measure input).trace) ∧
  (∀ e ∈ (buildResumePdf measure input).trace, npOK e = true) ∧
  belowAdjThenDraw (buildResumePdf measure input).trace = false

/-- A SUMMARY section that fills the first page to just above the bottom
margin, then three blank lines (whose spacing decrements perform no
overflow check) followed by one more pending line of text. -/
def overflowInput : List Char :=
  ("[SUMMARY]\n".toList) ++ (List.replicate 44 ['a', ' ']).flatten ++
    ("\n\n\n\nx".toList)

attribute [local semireducible] Rat.add Rat.sub Rat.mul Rat.ofScientific in
set_option maxRecDepth 400000 in
/-- C1 counterexample: with a font metric in which every word overflows the
content width (each word gets its own line), rendering `overflowInput`
drives the cursor to 50.2 < 54 via unchecked blank-line spacing decrements
while the final line "x" is still pending, refuting the stated invariant
that y is never below the bottom margin while content is pending. -/
theorem claim_C1_counterexample : ¬ C1Stated hugeMeasure overflowInput := by
  intro h
  have hb : belowAdjThenDraw (buildResumePdf hugeMeasure overflowInput).trace = true := by
    decide
  have hc := h.2.2
  rw [hb] at hc
  exact Bool.noConfusion hc

/-- C1 (amended): across a full document build, consecutive draw calls have
non-decreasing page index and non-increasing (not always strictly
decreasing: the SKILLS label and value share a baseline) cursor within a
page; a new page is appended only when a `needSpace` check finds the needed
height would take the cursor below the bottom margin; and every draw call
happens with the cursor at or above the bottom margin — but raw spacing
decrements (blank lines, section lead-ins, name/contact gaps) perform no
overflow check, so between draws the cursor may transiently dip below the
bottom margin (see the counterexample). -/
theorem claim_C1_pagination (measure : Measure) (input : List Char) :
    TraceOK (buildResumePdf measure input).trace :=
  (StInv_build measure input).1

attribute [local semireducible] Rat.add Rat.sub Rat.mul Rat.ofScientific in
set_option maxRecDepth 400000 in
theorem claim_C1_pagination_witness :
    npOK (Ev.adj 0 ((PAGE_H - MARGIN_Y) - SZ_NAME * 1.3)) = true :=
  (claim_C1_pagination zeroMeasure ("[NAME]\nBob".toList)).2.1 _ (by decide)

-- ── Claim C5 ──

attribute [local semireducible] Rat.add Rat.sub Rat.mul Rat.ofScientific in
set_option maxRecDepth 400000 in
/-- C5 counterexample: in an EDUCATION section an entry heading is NOT
preceded by the extra vertical spacing the claim asserts: rendering the
single heading line "Degree" differs from the claimed policy of first
decrementing the cursor by the extra gap and then drawing the bold wrapped
line (which is what EXPERIENCE does). -/
theorem claim_C5_counterexample :
    renderSection zeroMeasure initSt ("EDUCATION".toList) ("Degree".toList) ≠
      addWrapped zeroMeasure ("Degree".toList) Font.bold SZ_BODY C_BLACK 0 1.55
        (decY (addSectionHeader ("Education".toList) initSt) 5) := by
  decide

/-- C5 (amended): when rendering EXPERIENCE or EDUCATION, every non-empty
content line not beginning with "-" or "*" is rendered as a bold entry
heading — in EXPERIENCE preceded by an extra 5-unit cursor decrement, in
EDUCATION with no extra spacing — while lines beginning with "-" or "*" are
rendered as bullets at bullet size, indented 14 units, with the marker
stripped and a "- " prefix. -/
theorem claim_C5_entry_headings (measure : Measure) (s : St)
    (content line : List Char) (hl : (splitNL content).map trim = [line])
    (hne : line ≠ []) :
    (isBulletLine line = false →
      renderSection measure s ("EXPERIENCE".toList) content =
        addWrapped measure line Font.bold SZ_BODY C_BLACK 0 1.55
          (decY (addSectionHeader ("Experience".toList) s) 5) ∧
      renderSection measure s ("EDUCATION".toList) content =
        addWrapped measure line Font.bold SZ_BODY C_BLACK 0 1.55
          (addSectionHeader ("Education".toList) s)) ∧
    (isBulletLine line = true →
      renderSection measure s ("EXPERIENCE".toList) content =
        addWrapped measure ('-' :: ' ' :: stripBullet line) Font.regular
          SZ_BULLET C_BLACK 14 1.5 (addSectionHeader ("Experience".toList) s) ∧
      renderSection measure s ("EDUCATION".toList) content =
        addWrapped measure ('-' :: ' ' :: stripBullet line) Font.regular
          SZ_BULLET C_BLACK 14 1.5 (addSectionHeader ("Education".toList) s)) := by
  constructor
  · intro hb
    constructor
    · change List.foldl (expLine measure) (addSectionHeader ("Experience".toList) s)
        ((splitNL content).map trim) = _
      rw [hl]
      simp only [List.foldl_cons, List.foldl_nil]
      simp [expLine, hne, hb]
    · change List.foldl (eduLine measure) (addSectionHeader ("Education".toList) s)
        ((splitNL content).map trim) = _
      rw [hl]
      simp only [List.foldl_cons, List.foldl_nil]
      simp [eduLine, hne, hb]
  · intro hb
    constructor
    · change List.foldl (expLine measure) (addSectionHeader ("Experience".toList) s)
        ((splitNL content).map trim) = _
      rw [hl]
      simp only [List.foldl_cons, List.foldl_nil]
      simp [expLine, hne, hb]
    · change List.foldl (eduLine measure) (addSectionHeader ("Education".toList) s)
        ((splitNL content).map trim) = _
      rw [hl]
      simp only [List.foldl_cons, List.foldl_nil]
      simp [eduLine, hne, hb]

theorem claim_C5_entry_headings_witness :
    renderSection zeroMeasure initSt ("EXPERIENCE".toList) ("Degree".toList) =
      addWrapped zeroMeasure ("Degree".toList) Font.bold SZ_BODY C_BLACK 0 1.55
        (decY (addSectionHeader ("Experience".toList) initSt) 5) ∧
    renderSection zeroMeasure initSt ("EDUCATION".toList) ("Degree".toList) =
      addWrapped zeroMeasure ("Degree".toList) Font.bold SZ_BODY C_BLACK 0 1.55
        (addSectionHeader ("Education".toList) initSt) :=
  (claim_C5_entry_headings zeroMeasure initSt ("Degree".toList) ("Degree".toList)
    (by decide) (by decide)).1 (by decide)

-- ── Claim C8 ──

/-- C8: a section header is never split across a page boundary: the
upper-cased label and the horizontal rule drawn just below it always carry
the same page index (the second components of the `text` and `rule` events
below are the one `pg2`), the rule is always placed at or above the bottom
margin, and when the remaining space fails the pre-check the page break
events come before either draw. -/
theorem claim_C8_header_same_page (s : St) (label : List Char) :
    (addSectionHeader label s).trace =
      s.trace ++ [Ev.adj s.page (s.y - 8)] ++
      (if s.y - 8 - (SZ_SECTION_HDR + 10) < MARGIN_Y then
        [Ev.newPage (s.page + 1) (s.y - 8) (SZ_SECTION_HDR + 10),
         Ev.adj (s.page + 1) (PAGE_H - MARGIN_Y)]
       else []) ++
      (let pg2 : Nat := if s.y - 8 - (SZ_SECTION_HDR + 10) < MARGIN_Y then
          s.page + 1 else s.page
       let y2 : ℚ := if s.y - 8 - (SZ_SECTION_HDR + 10) < MARGIN_Y then
          PAGE_H - MARGIN_Y else s.y - 8
       [Ev.text pg2 y2 MARGIN_X (y2 - SZ_SECTION_HDR) SZ_SECTION_HDR Font.bold
          C_VIOLET (upperCase label),
        Ev.adj pg2 (y2 - (SZ_SECTION_HDR + 4)),
        Ev.rule pg2 (y2 - (SZ_SECTION_HDR + 4)) (y2 - (SZ_SECTION_HDR + 4)),
        Ev.adj pg2 (y2 - (SZ_SECTION_HDR + 4) - 7)]) ∧
    MARGIN_Y ≤ (if s.y - 8 - (SZ_SECTION_HDR + 10) < MARGIN_Y then
        PAGE_H - MARGIN_Y else s.y - 8) - (SZ_SECTION_HDR + 4) := by
  by_cases hbrk : s.y - 8 - (SZ_SECTION_HDR + 10) < MARGIN_Y
  · constructor
    · simp only [addSectionHeader, decY, setY, needSpace, drawText, emit]
      simp only [if_pos hbrk]
      simp [List.append_assoc]
    · simp only [if_pos hbrk]
      norm_num [PAGE_H, MARGIN_Y, SZ_SECTION_HDR]
  · constructor
    · simp only [addSectionHeader, decY, setY, needSpace, drawText, emit]
      simp only [if_neg hbrk]
      simp [List.append_assoc]
    · simp only [if_neg hbrk]
      push_neg at hbrk
      simp only [SZ_SECTION_HDR, MARGIN_Y] at hbrk ⊢
      linarith

-- ── Claim C9 ──

/-- C9: the document assembler always succeeds structurally: every build
yields a document with at least one page, and an input containing no
section markers leaves the initial state unchanged — exactly one (blank)
page with no draw calls — rather than an error. -/
theorem claim_C9_structural (measure : Measure) (t : List Char) :
    1 ≤ numPages (buildResumePdf measure t) ∧
      (scanMarker t = none →
        buildResumePdf measure t = initSt ∧
        numPages (buildResumePdf measure t) = 1 ∧
        draws (buildResumePdf measure t).trace = []) := by
  constructor
  · simp [numPages]
  · intro h
    have hp : parseSections t = [] := by
      simp [parseSections, h]
    refine ⟨?_, ?_, ?_⟩
    · simp [buildResumePdf, hp]
    · simp [buildResumePdf, hp, numPages, initSt]
    · simp [buildResumePdf, hp, initSt, draws]

theorem claim_C9_structural_witness :
    buildResumePdf zeroMeasure ("no markers here".toList) = initSt ∧
    numPages (buildResumePdf zeroMeasure ("no markers here".toList)) = 1 ∧
    draws (buildResumePdf zeroMeasure ("no markers here".toList)).trace = [] :=
  (claim_C9_structural zeroMeasure ("no markers here".toList)).2 (by decide)

-- ── Claim C10 ──

/-- C10: every `addLine` call whose consumed line height
(size × lineHeightMult) is at most the page content height leaves the
cursor at or above the bottom margin on return, regardless of the cursor on
entry, because `needSpace` runs before the text is placed; and for the
multipliers the program actually uses (≥ 1, non-negative size) the baseline
`y - size` at which the text is drawn also stays at or above the bottom
margin. -/
theorem claim_C10_addLine_bounded (text : List Char) (font : Font) (size : ℚ)
    (color : Color) (x mult : ℚ) (s : St)
    (h : size * mult ≤ PAGE_H - 2 * MARGIN_Y) :
    MARGIN_Y ≤ (addLine text font size color x mult s).y ∧
      (1 ≤ mult → 0 ≤ size →
        MARGIN_Y ≤ (needSpace (size * mult) s).y - size) := by
  have hy := needSpace_y (size * mult) s h
  constructor
  · have hEq : (addLine text font size color x mult s).y =
        (needSpace (size * mult) s).y - size * mult := rfl
    rw [hEq]
    linarith
  · intro hm hs
    have h1 : size * 1 ≤ size * mult := mul_le_mul_of_nonneg_left hm hs
    rw [mul_one] at h1
    linarith

theorem claim_C10_addLine_bounded_witness :
    MARGIN_Y ≤ (addLine ("hi".toList) Font.regular SZ_BODY C_BLACK MARGIN_X 1.5
      ⟨0, 10, []⟩).y ∧
    MARGIN_Y ≤ (needSpace (SZ_BODY * 1.5) ⟨0, 10, []⟩).y - SZ_BODY :=
  ⟨(claim_C10_addLine_bounded ("hi".toList) Font.regular SZ_BODY C_BLACK MARGIN_X
      1.5 ⟨0, 10, []⟩ (by norm_num [SZ_BODY, PAGE_H, MARGIN_Y])).1,
   (claim_C10_addLine_bounded ("hi".toList) Font.regular SZ_BODY C_BLACK MARGIN_X
      1.5 ⟨0, 10, []⟩ (by norm_num [SZ_BODY, PAGE_H, MARGIN_Y])).2
      (by norm_num) (by norm_num [SZ_BODY])⟩
